import Mathlib

/-!
Verification of the multimodal document-processing and retrieval pipeline.

This file gives a shallow embedding, in Lean 4, of the parts of the program
that the checked properties talk about:

* `document_processor.py` — page processing (`DocumentProcessor._process_page`):
  bounding-box to pixel-crop conversion with padding and clamping, the
  degenerate-box guard, per-region analysis, id generation, and the final
  assembly of a page record; and the document pipeline
  (`DocumentProcessor.process_pdf`): parallel completion in arbitrary order
  followed by a stable sort on the page number.
* `rag_pipeline.py` — batched ingestion with a bounded retry loop
  (`MultiModalRAG.ingest_documents`) and the visual selector
  (`MultiModalRAG.select_best_visual_match`).
* `app.py` — the chat handler's candidate collection (regex scan of retrieved
  text for `ID: <token>]` markers, path-existence filter) and its handling of
  the selector's response (legacy fallback, in-range display logic).

External effects are modelled as explicit oracles: the vision/LLM calls as
functions from a call counter to their (optional) parsed result, the uuid
stream as a function from a draw counter to a string, filesystem existence as
a boolean predicate on paths, and the vector-store upsert as a function from
an attempt counter to an outcome.  Python exceptions that the source catches
at the page boundary are modelled with `Except`/`Option`.  Integer division
appears only with nonnegative operands in the checked statements, where
Lean's `Int` division agrees with Python's `int(...)` truncation.
-/

/-- Python's `needle in hay` on strings: substring containment. -/
def strContains (hay needle : String) : Bool :=
  (List.range (hay.data.length + 1)).any (fun i => needle.data.isPrefixOf (hay.data.drop i))

/-- Padding `int(dim * 0.02)`: the symmetric 2% padding used before cropping
(`document_processor.py` lines 105-106), as floor division. -/
def padOf (dim : Nat) : Nat := dim * 2 / 100

/-- Pixel conversion `int(coord * dim / 1000)`: 0-1000-scale coordinate to pixels
(`document_processor.py` lines 109-112). -/
def toPx (coord : Int) (dim : Nat) : Int := coord * (dim : Int) / 1000

/-- The crop box `(left, upper, right, lower)` computed at
`document_processor.py` lines 108-113: pixel conversion, 2% padding,
clamping to `[0, w]` and `[0, h]`. -/
def croppedBox (w h : Nat) (ymin xmin ymax xmax : Int) : Int × Int × Int × Int :=
  (max 0 (toPx xmin w - (padOf w : Int)),
   max 0 (toPx ymin h - (padOf h : Int)),
   min (w : Int) (toPx xmax w + (padOf w : Int)),
   min (h : Int) (toPx ymax h + (padOf h : Int)))

/-- The validity guard at `document_processor.py` line 117:
`crop_box[2] <= crop_box[0] or crop_box[3] <= crop_box[1]`. -/
def degenerateCrop (w h : Nat) (ymin xmin ymax xmax : Int) : Bool :=
  decide ((croppedBox w h ymin xmin ymax xmax).2.2.1 ≤ (croppedBox w h ymin xmin ymax xmax).1) ||
  decide ((croppedBox w h ymin xmin ymax xmax).2.2.2 ≤ (croppedBox w h ymin xmin ymax xmax).2.1)

/-- One raw detection returned by `_detect_layout`: the dictionary accesses
`item.get("bbox")` and `item.get("type")` are modelled as `Option` fields. -/
structure Detection where
  bbox : Option (List Int)
  dtype : Option String
deriving DecidableEq

/-- A parsed `_analyze_crop` response: fields `description` and `markdown`,
each possibly absent. -/
structure AnalysisRes where
  adesc : Option String
  amd : Option String
deriving DecidableEq

/-- One entry of `page_image_metadata` (`document_processor.py` lines 159-165). -/
structure VisualMeta where
  vid : String
  vpath : String
  vtype : String
  vdesc : String
  vmd : String
deriving DecidableEq

/-- The `Document` emitted per page: `page_content`, `metadata["page"]`
(1-based) and `metadata["image_metadata"]`. -/
structure PageDoc where
  content : String
  page : Nat
  imageMeta : List VisualMeta
deriving DecidableEq

/-- Per-page context: page raster size, page number, basename of the source
file, and the two oracles of `_process_page` — `analyze k` is the parsed
result of the k-th `_analyze_crop` call on this page (`none` covering the
`return None` failure branch at lines 268-270), and `uuids k` the k-th
`str(uuid.uuid4())` drawn at line 128. -/
structure PCtx where
  w : Nat
  h : Nat
  pageNum : Nat
  fname : String
  analyze : Nat → Option AnalysisRes
  uuids : Nat → String

/-- Python `str.capitalize()`: first character uppercased, rest lowercased. -/
def capitalizeStr (s : String) : String :=
  match s.data with
  | [] => ""
  | c :: cs => String.mk (c.toUpper :: cs.map Char.toLower)

/-- The normalisation of the detected label and the matching target directory
(`document_processor.py` lines 140-150): substring containment rules. -/
def normTypeDir (label : String) : String × String :=
  if strContains label "table" then ("table", "extracted_images/tables")
  else if strContains label "chart" || strContains label "graph" || strContains label "plot" then
    ("chart", "extracted_images/charts")
  else ("figure", "extracted_images/figures")

/-- The annotated reference appended to the page text for one visual element
(`document_processor.py` lines 169-172). -/
def descFor (vtype vidStr desc md : String) (pageNum : Nat) : String :=
  if strContains vtype "table" && !(md == "") then
    "\n[Detected Table ID: " ++ vidStr ++ "] (Page " ++ toString (pageNum + 1) ++ "):\n" ++
      desc ++ "\n\nReconstructed Table Data:\n" ++ md ++ "\n"
  else
    "\n[Detected " ++ capitalizeStr vtype ++ " ID: " ++ vidStr ++ "] (Page " ++
      toString (pageNum + 1) ++ "):\n" ++ desc ++ "\n"

/-- The body of the `for idx, item in enumerate(detected_items)` loop of
`_process_page` for a single detection (`document_processor.py` lines 96-172).
`t` is the per-page region counter indexing the `uuids` and `analyze` oracles
(one draw and one analysis call per region surviving the degenerate-box
guard).  Result: `.error ()` when the bbox unpacking
`ymin, xmin, ymax, xmax = bbox` raises (missing or ill-shaped bbox — caught
only at the page boundary), otherwise the optional
(metadata entry, annotated reference) pair and the new counter. -/
def processItem (ctx : PCtx) (idx t : Nat) (d : Detection) :
    Except Unit (Option (VisualMeta × String) × Nat) :=
  match d.bbox with
  | some (ymin :: xmin :: ymax :: xmax :: []) =>
    if degenerateCrop ctx.w ctx.h ymin xmin ymax xmax then .ok (none, t)
    else
      let newId := (ctx.uuids t).take 8
      match ctx.analyze t with
      | none => .ok (none, t + 1)
      | some a =>
        let label := (d.dtype.getD "figure").toLower
        let nd := normTypeDir label
        let desc := a.adesc.getD ""
        let md := a.amd.getD ""
        let path := nd.2 ++ "/" ++ nd.1 ++ "_" ++ ctx.fname ++ "_" ++ toString ctx.pageNum ++
          "_" ++ toString idx ++ ".png"
        .ok (some (VisualMeta.mk newId path nd.1 desc (if strContains nd.1 "table" then md else ""),
          descFor nd.1 newId desc md ctx.pageNum), t + 1)
  | _ => .error ()

/-- The whole detection loop of `_process_page`: accumulates the metadata
entries and the annotated references in detection order, threading the
enumeration index and the region counter. -/
def processSeq (ctx : PCtx) : List Detection → Nat → Nat →
    Except Unit (List VisualMeta × List String × Nat)
  | [], _, t => .ok ([], [], t)
  | d :: ds, idx, t =>
    match processItem ctx idx t d with
    | .error _ => .error ()
    | .ok (none, t2) => processSeq ctx ds (idx + 1) t2
    | .ok (some (m, s), t2) =>
      match processSeq ctx ds (idx + 1) t2 with
      | .error _ => .error ()
      | .ok (ms, ss, t3) => .ok (m :: ms, s :: ss, t3)

/-- Whole-page `_process_page` for one page, given its extracted raw text and the
detection list: `none` models the page-boundary `except` branch at
`document_processor.py` lines 187-189 (the whole page is dropped); otherwise
the emitted record with `final_content = text + "\n".join(visual_descriptions)`
and `page = page_num + 1`. -/
def processPage (ctx : PCtx) (text : String) (ds : List Detection) : Option PageDoc :=
  match processSeq ctx ds 0 0 with
  | .error _ => none
  | .ok (ms, ss, _) => some (PageDoc.mk (text ++ String.intercalate "\n" ss) (ctx.pageNum + 1) ms)

/-- A detection whose bbox unpacks without raising: `bbox` is a 4-element list. -/
def wellFormed (d : Detection) : Bool :=
  match d.bbox with
  | some (_ :: _ :: _ :: _ :: []) => true
  | _ => false

/-- The comparison used by `results.sort(key=lambda x: x[0])` at
`document_processor.py` line 65. -/
def byPage (a b : Nat × Option PageDoc) : Prop := a.1 ≤ b.1

instance : DecidableRel byPage := fun a b => inferInstanceAs (Decidable (a.1 ≤ b.1))

instance : IsTotal (Nat × Option PageDoc) byPage := ⟨fun a b => Nat.le_total a.1 b.1⟩

instance : IsTrans (Nat × Option PageDoc) byPage := ⟨fun _ _ _ h1 h2 => Nat.le_trans h1 h2⟩

/-- The final stable sort of the collected `(page_num, doc_obj)` pairs
(`document_processor.py` line 65). -/
def sortByPage (l : List (Nat × Option PageDoc)) : List (Nat × Option PageDoc) :=
  List.insertionSort byPage l

/-- Pipeline `DocumentProcessor.process_pdf` from the result-collection boundary on
(`document_processor.py` lines 53-68): `pageResult p` is what the worker for
page `p` produced (`none` = the page failed and was dropped), and `order` is
the nondeterministic `as_completed` completion order.  Pairs are collected in
completion order, sorted by page number, and the `None` results filtered out. -/
def processPdf (pageResult : Nat → Option PageDoc) (order : List Nat) : List PageDoc :=
  (sortByPage (order.map (fun p => (p, pageResult p)))).filterMap Prod.snd

-- Ingestion engine (`rag_pipeline.py`, `MultiModalRAG.ingest_documents`).

/-- Outcome of one `vector_store.add_documents` attempt: success, a
rate-limit/quota error (`"429" in str(e) or "quota" in str(e).lower()`), or
any other exception (re-raised). -/
inductive UpsertOutcome where
  | success
  | rateLimit
  | fatal
deriving DecidableEq

/-- Retry ceiling `max_retries = 5` (`rag_pipeline.py` line 48). -/
def maxRetries : Nat := 5

/-- Batch size `batch_size = 50` (`rag_pipeline.py` line 41). -/
def batchSize : Nat := 50

/-- The `while retry_count < max_retries` loop for one batch
(`rag_pipeline.py` lines 50-62).  `oracle` gives the outcome of each attempt,
indexed by a global attempt counter `t`; `fuel` is the number of attempts
still allowed.  Returns `(batch succeeded, next counter)`, or `.error` when a
non-rate-limit exception propagates (`raise e`). -/
def runBatch (oracle : Nat → UpsertOutcome) : Nat → Nat → Except Unit (Bool × Nat)
  | 0, t => .ok (false, t)
  | fuel + 1, t =>
    match oracle t with
    | .success => .ok (true, t + 1)
    | .rateLimit => runBatch oracle fuel (t + 1)
    | .fatal => .error ()

/-- The `for i in range(0, total_chunks, batch_size)` loop
(`rag_pipeline.py` lines 45-68) over the remaining chunk list, with batch
size `B`.  `fuel` bounds the recursion (the caller passes the chunk count,
which suffices since every round consumes at least one chunk for `0 < B`).
Returns `(batches started, batches that succeeded, final attempt counter)`;
a batch that exhausts its retries is merely logged in the source, so the
loop continues. -/
def ingestLoop {α : Type} (oracle : Nat → UpsertOutcome) (B : Nat) :
    Nat → Nat → List α → Except Unit (Nat × Nat × Nat)
  | _, t, [] => .ok (0, 0, t)
  | 0, t, _ :: _ => .ok (0, 0, t)
  | fuel + 1, t, _ :: cs =>
    match runBatch oracle maxRetries t with
    | .error _ => .error ()
    | .ok (okb, t2) =>
      match ingestLoop oracle B fuel t2 (cs.drop (B - 1)) with
      | .error _ => .error ()
      | .ok (nb, ns, t3) => .ok (nb + 1, ns + (if okb then 1 else 0), t3)

/-- Ingestion `ingest_documents` restricted to its batching behaviour: the chunk list
is processed front to back in batches of `B`. -/
def ingestDocs {α : Type} (oracle : Nat → UpsertOutcome) (B : Nat) (chunks : List α) :
    Except Unit (Nat × Nat × Nat) :=
  ingestLoop oracle B chunks.length 0 chunks

/-- Ceiling division `ceil(n / b)` on naturals, as the source computes it:
`(total_chunks + batch_size - 1) // batch_size`. -/
def ceilDiv (n b : Nat) : Nat := (n + b - 1) / b

-- Visual selector (`rag_pipeline.py`, `select_best_visual_match`) and the
-- chat handler's handling of its response (`app.py` lines 262-331).

/-- The parsed JSON object returned by the selection classifier: every field
access in the source is a `.get`, so all fields are optional.
`selectedIndex` is the legacy single-index field. -/
structure SelJson where
  intent : Option String
  visualTypeRequested : Option String
  selectedIndices : Option (List Int)
  selectedIndex : Option Int
  reason : Option String
deriving DecidableEq

/-- A candidate as fed to the selector prompt (`type` and `description`). -/
structure CandIn where
  ctype : String
  cdescr : String
deriving DecidableEq

/-- Selector `select_best_visual_match` (`rag_pipeline.py` lines 148-193).
`classifier` is the combined outcome of the `llm.invoke` call and the
`json.loads` parse (`.error` = exception in either, caught by the
`except` at line 191).  The second component counts classifier invocations:
an empty candidate list returns `None` before any call. -/
def selectBestVisualMatch (query : String) (candidates : List CandIn)
    (classifier : Except Unit SelJson) : Option SelJson × Nat :=
  match candidates with
  | [] => (none, 0)
  | _ :: _ =>
    match classifier with
    | .error _ => (none, 1)
    | .ok s => (some s, 1)

/-- The chat handler's decoding of the selection (`app.py` lines 262-273):
`selected_indices` with default `[]`, the legacy `selected_index` fallback
when that list is missing or empty, `intent` defaulting to `"specific"`, and
the `"Selection failed."` branch when the selector returned `None`.
Returns `(selected indices, intent, reason)`. -/
def parseSelection (sel : Option SelJson) : List Int × String × String :=
  match sel with
  | none => ([], "specific", "Selection failed.")
  | some s =>
    let si0 := s.selectedIndices.getD []
    let si := if si0 = [] then
        (match s.selectedIndex with
         | some i => [i]
         | none => si0)
      else si0
    (si, s.intent.getD "specific", s.reason.getD "")

/-- Range check `0 <= idx < len(all_images_data)` (`app.py` lines 286, 297). -/
def inRange (n : Nat) (idx : Int) : Bool := decide (0 ≤ idx) && decide (idx < (n : Int))

/-- Gallery mode (`app.py` lines 284-292): every in-range selected index is
displayed; out-of-range indices are ignored. -/
def galleryShown (n : Nat) : List Int → List Int
  | [] => []
  | idx :: rest => if inRange n idx then idx :: galleryShown n rest else galleryShown n rest

/-- Specific mode (`app.py` lines 295-310): the loop displays the first
in-range selected index and then `break`s. -/
def specificShown (n : Nat) : List Int → List Int
  | [] => []
  | idx :: rest => if inRange n idx then [idx] else specificShown n rest

-- Visual linker (`app.py` lines 207-251): regex scan for identifiers and
-- candidate collection.

/-- Python regex `\s` (ASCII range). -/
def isSpaceCh (c : Char) : Bool :=
  c = ' ' || c = '\t' || c = '\n' || c = '\x0d' || c = '\x0b' || c = '\x0c'

/-- The character class `[a-zA-Z0-9-]`. -/
def isIdCh (c : Char) : Bool := c.isAlpha || c.isDigit || c = '-'

/-- Attempt to match the pattern `ID:\s*([a-zA-Z0-9-]+)\]` at the head of the
character list; on success return the captured token and the characters after
the match.  (The token class excludes `]`, so the greedy `+` needs no
backtracking.) -/
def tryMatchId (l : List Char) : Option (String × List Char) :=
  match l with
  | 'I' :: 'D' :: ':' :: rest =>
    let r1 := rest.dropWhile isSpaceCh
    let tok := r1.takeWhile isIdCh
    let r2 := r1.dropWhile isIdCh
    match r2 with
    | ']' :: r3 => if tok = [] then none else some (String.mk tok, r3)
    | _ => none
  | _ => none

/-- Scan loop, `re.findall` of the id pattern: leftmost, non-overlapping matches,
scanning forward one character on failure.  `fuel` is an upper bound on the
number of scan steps; each step consumes at least one character, so the
initial string length suffices. -/
def scanIdsAux : Nat → List Char → List String
  | 0, _ => []
  | _ + 1, [] => []
  | fuel + 1, c :: rest =>
    match tryMatchId (c :: rest) with
    | some (tok, r2) => tok :: scanIdsAux fuel r2
    | none => scanIdsAux fuel rest

/-- Full scan `id_pattern.findall(text)` for `ID:\s*([a-zA-Z0-9-]+)\]`
(`app.py` line 213). -/
def scanIds (s : String) : List String := scanIdsAux s.length s.data

/-- One entry of a chunk's deserialised `image_metadata` list; every access
in the source is a `.get`, so all fields are optional. -/
structure MetaItem where
  itemId : Option String
  itemPath : Option String
  itemType : Option String
  itemDesc : Option String
  itemMd : Option String
deriving DecidableEq

/-- A retrieved chunk: its text, its parsed `image_metadata` (`none` when the
key is absent or `json.loads` raised `JSONDecodeError`, both of which skip
the chunk's visuals), and its page metadata. -/
structure RetDoc where
  pageContent : String
  imageMetadata : Option (List MetaItem)
  page : Option Nat
deriving DecidableEq

/-- Accumulator `found_ids_in_context`: the ids matched by the pattern across all
retrieved chunks (`app.py` lines 216-219).  The source accumulates a set;
only membership is ever used, so a concatenated list is equivalent. -/
def foundIds (docs : List RetDoc) : List String :=
  docs.foldl (fun acc d => acc ++ scanIds d.pageContent) []

/-- The guard `if path and os.path.exists(path)` (`app.py` line 228):
the path must be present, non-empty, and exist on disk (`pathEx`). -/
def keepItem (pathEx : String → Bool) (it : MetaItem) : Bool :=
  match it.itemPath with
  | some p => !(p == "") && pathEx p
  | none => false

/-- One entry of `candidates` (`app.py` lines 236-241). -/
structure CandOut where
  cid : Nat
  ctype : String
  cdesc : String
  isLinked : Bool
deriving DecidableEq

/-- One entry of `all_images_data` (`app.py` lines 243-248). -/
structure ImgOut where
  ipath : String
  ipage : Option Nat
  imd : String
  iLinked : Bool
deriving DecidableEq

/-- The candidate built for one metadata item (`app.py` lines 229-241):
`visual_id = item.get("id", "")`, `is_directly_linked = visual_id in
found_ids_in_context`, the `[DIRECTLY LINKED]` description marker, and the
description truncated to 300 characters. -/
def mkCandidate (found : List String) (k : Nat) (it : MetaItem) : CandOut :=
  let linked := decide ((it.itemId.getD "") ∈ found)
  CandOut.mk k (it.itemType.getD "figure")
    ((if linked then "[DIRECTLY LINKED] " else "") ++ (it.itemDesc.getD "").take 300)
    linked

/-- The inner `for item in img_meta_list` loop (`app.py` lines 226-249),
threading the `unique_id_counter`. -/
def collectItems (pathEx : String → Bool) (found : List String) (d : RetDoc) :
    List MetaItem → Nat → List CandOut × List ImgOut × Nat
  | [], k => ([], [], k)
  | it :: its, k =>
    if keepItem pathEx it then
      let linked := decide ((it.itemId.getD "") ∈ found)
      let rest := collectItems pathEx found d its (k + 1)
      (mkCandidate found k it :: rest.1,
       ImgOut.mk (it.itemPath.getD "") d.page (it.itemMd.getD "") linked :: rest.2.1,
       rest.2.2)
    else collectItems pathEx found d its k

/-- The outer `for doc in source_docs` loop (`app.py` lines 222-251). -/
def collectDocs (pathEx : String → Bool) (found : List String) :
    List RetDoc → Nat → List CandOut × List ImgOut × Nat
  | [], k => ([], [], k)
  | d :: docs, k =>
    match d.imageMetadata with
    | none => collectDocs pathEx found docs k
    | some its =>
      let r1 := collectItems pathEx found d its k
      let r2 := collectDocs pathEx found docs r1.2.2
      (r1.1 ++ r2.1, r1.2.1 ++ r2.2.1, r2.2.2)

/-- The full candidate collection of the chat handler: scan the retrieved
chunks for cited ids, then build `(candidates, all_images_data)`. -/
def buildCandidates (pathEx : String → Bool) (docs : List RetDoc) :
    List CandOut × List ImgOut :=
  let r := collectDocs pathEx (foundIds docs) docs 0
  (r.1, r.2.1)

/-- The metadata items that pass the path filter, paired with their chunk, in
traversal order - the items from which candidates are built. -/
def srcItems (pathEx : String → Bool) : List RetDoc → List (RetDoc × MetaItem)
  | [] => []
  | d :: docs =>
    ((d.imageMetadata.getD []).filter (keepItem pathEx)).map (fun it => (d, it)) ++
      srcItems pathEx docs

-- Concrete inputs used by witnesses and counterexamples.

/-- A run in which every page worker produced a record. -/
def pageResultsAll : Nat → Option PageDoc := fun p => some (PageDoc.mk "" (p + 1) [])

/-- A run in which the worker for page 0 failed (its record is `None`). -/
def pageResultsDrop : Nat → Option PageDoc :=
  fun p => if p = 0 then none else some (PageDoc.mk "" (p + 1) [])

/-- A detection covering the whole page. -/
def fullBoxDet : Detection := Detection.mk (some [0, 0, 1000, 1000]) (some "figure")

/-- A detection with inverted x-coordinates (xMin = 1000, xMax = 0). -/
def invertedDet : Detection := Detection.mk (some [0, 1000, 1000, 0]) (some "figure")

/-- A malformed detection item: no `bbox` key. -/
def noBoxDet : Detection := Detection.mk none (some "table")

/-- A page context whose uuid stream yields two distinct uuids sharing their
first 8 characters - a possible (if improbable) pair of `uuid4` draws. -/
def ctxDup : PCtx :=
  PCtx.mk 1000 1000 0 "doc.pdf" (fun _ => some (AnalysisRes.mk (some "d") (some "")))
    (fun k => if k = 0 then "deadbeef-0000-4000" else "deadbeef-1111-4111")

/-- A page context whose uuid stream has distinct 8-character truncations. -/
def ctxInj : PCtx :=
  PCtx.mk 1000 1000 0 "doc.pdf" (fun _ => some (AnalysisRes.mk (some "d") (some "")))
    (fun k => if k = 0 then "aaaaaaaa-1111-4111" else "bbbbbbbb-2222-4222")

/-- A page context whose region analysis always fails (`_analyze_crop`
returns `None`). -/
def ctxFail : PCtx :=
  PCtx.mk 1000 1000 0 "doc.pdf" (fun _ => none) (fun _ => "cafebabe-3333-4333")

/-- An upsert oracle that always succeeds. -/
def oracleSuccess : Nat → UpsertOutcome := fun _ => .success

/-- An upsert oracle under which the first batch exhausts its 5 retries and
every later attempt succeeds. -/
def oracleThrottle : Nat → UpsertOutcome :=
  fun t => if t < 5 then .rateLimit else .success

/-- A one-element candidate list. -/
def candOne : List CandIn := [CandIn.mk "table" "a data table"]

/-- A classifier response with `intent="specific"` and three indices. -/
def selThree : SelJson :=
  SelJson.mk (some "specific") (some "any") (some [0, 1, 2]) none (some "r")

/-- A retrieved chunk whose text cites id `abc123` and whose metadata has one
item with an existing crop file. -/
def docCited : RetDoc :=
  RetDoc.mk "intro\n[Detected Table ID: abc123] (Page 1):\ndesc"
    (some [MetaItem.mk (some "abc123") (some "tables/t.png") (some "table") (some "desc")
      (some "|a|b|")])
    (some 1)

/-- A retrieved chunk whose single metadata item points at a missing file. -/
def docMissing : RetDoc :=
  RetDoc.mk "plain text"
    (some [MetaItem.mk (some "zzz999") (some "charts/gone.png") (some "chart") (some "d2") none])
    (some 2)

/-- Filesystem oracle: only `tables/t.png` exists. -/
def pathExSample : String → Bool := fun p => p == "tables/t.png"

/-- A page with two full-page detections. -/
def dsTwo : List Detection := [fullBoxDet, fullBoxDet]

/-- The page-worker function submitted per page by `process_pdf`
(`document_processor.py` line 49): page `p` runs `_process_page` on its own
inputs, with the per-page oracles `analyzeOf p` (that page's `_analyze_crop`
results) and `uuidsOf p` (that page's `uuid.uuid4()` draws).  Composing this
with `processPdf` gives the whole document run. -/
def runPages (w h : Nat) (fname : String) (texts : Nat → String) (dss : Nat → List Detection)
    (analyzeOf : Nat → Nat → Option AnalysisRes) (uuidsOf : Nat → Nat → String) :
    Nat → Option PageDoc :=
  fun p => processPage (PCtx.mk w h p fname (analyzeOf p) (uuidsOf p)) (texts p) (dss p)

/-- Raw text of each page of a two-page sample run. -/
def twoPageTexts : Nat → String := fun _ => "T"

/-- Detections of each page of the sample run: one full-page figure. -/
def twoPageDss : Nat → List Detection := fun _ => [fullBoxDet]

/-- Analysis oracle of the sample run: every region analysis succeeds. -/
def twoPageAnalyze : Nat → Nat → Option AnalysisRes :=
  fun _ _ => some (AnalysisRes.mk (some "d") (some ""))

/-- Uuid streams of the sample run: the two pages draw uuids with distinct
8-character truncations. -/
def twoPageUuids : Nat → Nat → String :=
  fun p _ => if p = 0 then "aaaaaaaa-1111-4111" else "bbbbbbbb-2222-4222"

-- Helper lemmas about `processItem` and `processSeq`.

theorem wellFormed_shape (d : Detection) (h : wellFormed d = true) :
    ∃ a b c e, d.bbox = some [a, b, c, e] := by
  unfold wellFormed at h
  rcases hb : d.bbox with _ | (_ | ⟨a, (_ | ⟨b, (_ | ⟨c, (_ | ⟨e, (_ | ⟨f, l⟩)⟩)⟩)⟩)⟩) <;>
    rw [hb] at h <;> simp at h
  exact ⟨a, b, c, e, rfl⟩

theorem processItem_ok (ctx : PCtx) (idx t : Nat) (d : Detection)
    (h : wellFormed d = true) : ∃ r, processItem ctx idx t d = .ok r := by
  obtain ⟨a, b, c, e, hb⟩ := wellFormed_shape d h
  unfold processItem
  rw [hb]
  dsimp only
  split
  · exact ⟨_, rfl⟩
  · cases ctx.analyze t <;> exact ⟨_, rfl⟩

theorem processSeq_ok (ctx : PCtx) :
    ∀ (ds : List Detection), (∀ x ∈ ds, wellFormed x = true) → ∀ idx t,
      ∃ ms ss t2, processSeq ctx ds idx t = .ok (ms, ss, t2) := by
  intro ds
  induction ds with
  | nil => exact fun _ idx t => ⟨[], [], t, rfl⟩
  | cons d ds ih =>
    intro hwf idx t
    obtain ⟨r, hr⟩ := processItem_ok ctx idx t d (hwf d (by simp))
    have hwf' : ∀ x ∈ ds, wellFormed x = true := fun x hx => hwf x (by simp [hx])
    rcases r with ⟨o, t2⟩
    cases o with
    | none =>
      obtain ⟨ms, ss, t3, h3⟩ := ih hwf' (idx + 1) t2
      refine ⟨ms, ss, t3, ?_⟩
      simp only [processSeq, hr]
      exact h3
    | some p =>
      rcases p with ⟨m, s⟩
      obtain ⟨ms, ss, t3, h3⟩ := ih hwf' (idx + 1) t2
      refine ⟨m :: ms, s :: ss, t3, ?_⟩
      simp only [processSeq, hr, h3]

theorem toPx_nonneg (coord : Int) (dim : Nat) (h0 : 0 ≤ coord) : 0 ≤ toPx coord dim :=
  Int.ediv_nonneg (mul_nonneg h0 (Int.natCast_nonneg dim)) (by norm_num)

theorem toPx_le (coord : Int) (dim : Nat) (hc : coord ≤ 1000) : toPx coord dim ≤ dim := by
  unfold toPx
  have h1 : coord * (dim : Int) ≤ 1000 * (dim : Int) :=
    mul_le_mul_of_nonneg_right hc (Int.natCast_nonneg dim)
  calc coord * (dim : Int) / 1000 ≤ 1000 * (dim : Int) / 1000 :=
        Int.ediv_le_ediv (by norm_num) h1
    _ = dim := Int.mul_ediv_cancel_left _ (by norm_num)

/-- Claim C3: for every bounding box on the 0-1000 scale and positive page
dimensions, the crop box obtained by pixel conversion, 2% padding and
clamping lies inside `[0, w] × [0, h]` (x-coordinates are components 1 and 3,
y-coordinates components 2 and 4 of the PIL box). -/
theorem crop_box_in_bounds (w h : Nat) (ymin xmin ymax xmax : Int)
    (hw : 0 < w) (hh : 0 < h)
    (hy0 : 0 ≤ ymin) (hy1 : ymin ≤ 1000) (hx0 : 0 ≤ xmin) (hx1 : xmin ≤ 1000)
    (hy2 : 0 ≤ ymax) (hy3 : ymax ≤ 1000) (hx2 : 0 ≤ xmax) (hx3 : xmax ≤ 1000) :
    0 ≤ (croppedBox w h ymin xmin ymax xmax).1 ∧
    (croppedBox w h ymin xmin ymax xmax).1 ≤ w ∧
    0 ≤ (croppedBox w h ymin xmin ymax xmax).2.2.1 ∧
    (croppedBox w h ymin xmin ymax xmax).2.2.1 ≤ w ∧
    0 ≤ (croppedBox w h ymin xmin ymax xmax).2.1 ∧
    (croppedBox w h ymin xmin ymax xmax).2.1 ≤ h ∧
    0 ≤ (croppedBox w h ymin xmin ymax xmax).2.2.2 ∧
    (croppedBox w h ymin xmin ymax xmax).2.2.2 ≤ h := by
  have pw : (0 : Int) ≤ (padOf w : Int) := Int.natCast_nonneg _
  have ph : (0 : Int) ≤ (padOf h : Int) := Int.natCast_nonneg _
  have w0 : (0 : Int) ≤ (w : Int) := Int.natCast_nonneg _
  have hzero : (0 : Int) ≤ (h : Int) := Int.natCast_nonneg _
  have hxmin := toPx_le xmin w hx1
  have hxmax0 := toPx_nonneg xmax w hx2
  have hymin := toPx_le ymin h hy1
  have hymax0 := toPx_nonneg ymax h hy2
  unfold croppedBox
  refine ⟨le_max_left _ _, max_le w0 (by omega), le_min w0 (by omega), min_le_left _ _,
    le_max_left _ _, max_le hzero (by omega), le_min hzero (by omega), min_le_left _ _⟩

/-- Witness for C3 at `w = 100`, `h = 200`, bbox `[100, 50, 400, 950]`. -/
theorem crop_box_in_bounds_witness :
    (0 < 100 ∧ 0 < 200 ∧ ((0 : Int) ≤ 100 ∧ (100 : Int) ≤ 1000) ∧
      ((0 : Int) ≤ 50 ∧ (50 : Int) ≤ 1000) ∧ ((0 : Int) ≤ 400 ∧ (400 : Int) ≤ 1000) ∧
      ((0 : Int) ≤ 950 ∧ (950 : Int) ≤ 1000)) ∧
    (0 ≤ (croppedBox 100 200 100 50 400 950).1 ∧
     (croppedBox 100 200 100 50 400 950).1 ≤ 100 ∧
     0 ≤ (croppedBox 100 200 100 50 400 950).2.2.1 ∧
     (croppedBox 100 200 100 50 400 950).2.2.1 ≤ 100 ∧
     0 ≤ (croppedBox 100 200 100 50 400 950).2.1 ∧
     (croppedBox 100 200 100 50 400 950).2.1 ≤ 200 ∧
     0 ≤ (croppedBox 100 200 100 50 400 950).2.2.2 ∧
     (croppedBox 100 200 100 50 400 950).2.2.2 ≤ 200) :=
  ⟨by decide,
   crop_box_in_bounds 100 200 100 50 400 950 (by decide) (by decide) (by decide) (by decide)
     (by decide) (by decide) (by decide) (by decide) (by decide) (by decide)⟩

/-- Claim C4: a detection whose clamped crop box has right edge ≤ left edge
or bottom edge ≤ top edge is skipped - it produces no visual element, raises
nothing, and a page made of such well-formed detections still emits a record. -/
theorem degenerate_detection_skipped (ctx : PCtx) (idx t : Nat) (d : Detection)
    (ymin xmin ymax xmax : Int)
    (hbb : d.bbox = some [ymin, xmin, ymax, xmax])
    (hdeg : degenerateCrop ctx.w ctx.h ymin xmin ymax xmax = true) :
    processItem ctx idx t d = .ok (none, t) ∧
    ∀ text ds1 ds2, (∀ x ∈ ds1 ++ d :: ds2, wellFormed x = true) →
      (processPage ctx text (ds1 ++ d :: ds2)).isSome := by
  constructor
  · simp [processItem, hbb, hdeg]
  · intro text ds1 ds2 hwf
    obtain ⟨ms, ss, t2, h2⟩ := processSeq_ok ctx _ hwf 0 0
    simp [processPage, h2]

/-- Witness for C4: inverted x-coordinates on a 1000×1000 page. -/
theorem degenerate_detection_skipped_witness :
    (invertedDet.bbox = some [0, 1000, 1000, 0] ∧
      degenerateCrop ctxDup.w ctxDup.h 0 1000 1000 0 = true) ∧
    (processItem ctxDup 0 0 invertedDet = .ok (none, 0) ∧
     ∀ text ds1 ds2, (∀ x ∈ ds1 ++ invertedDet :: ds2, wellFormed x = true) →
       (processPage ctxDup text (ds1 ++ invertedDet :: ds2)).isSome) :=
  ⟨⟨rfl, by decide⟩,
   degenerate_detection_skipped ctxDup 0 0 invertedDet 0 1000 1000 0 rfl (by decide)⟩

theorem processSeq_append (ctx : PCtx) (as bs : List Detection) : ∀ idx t,
    processSeq ctx (as ++ bs) idx t =
      match processSeq ctx as idx t with
      | .error _ => .error ()
      | .ok (ms, ss, t2) =>
        match processSeq ctx bs (idx + as.length) t2 with
        | .error _ => .error ()
        | .ok (ms2, ss2, t3) => .ok (ms ++ ms2, ss ++ ss2, t3) := by
  induction as with
  | nil =>
    intro idx t
    simp only [List.nil_append, List.length_nil, Nat.add_zero, processSeq]
    cases processSeq ctx bs idx t with
    | error e => cases e; rfl
    | ok r => rcases r with ⟨ms2, ss2, t3⟩; simp
  | cons a as ih =>
    intro idx t
    simp only [List.cons_append, processSeq, List.length_cons, List.append_eq]
    cases hpi : processItem ctx idx t a with
    | error e => rfl
    | ok r =>
      rcases r with ⟨o, t2⟩
      cases o with
      | none =>
        dsimp only
        have harith : (idx + 1) + as.length = idx + (as.length + 1) := by omega
        rw [ih (idx + 1) t2, harith]
      | some p =>
        rcases p with ⟨m, s⟩
        dsimp only
        have harith : (idx + 1) + as.length = idx + (as.length + 1) := by omega
        rw [ih (idx + 1) t2, harith]
        cases processSeq ctx as (idx + 1) t2 with
        | error e => rfl
        | ok r2 =>
          rcases r2 with ⟨ms, ss, t3⟩
          dsimp only
          cases processSeq ctx bs (idx + (as.length + 1)) t3 with
          | error e => rfl
          | ok r3 => rcases r3 with ⟨ms2, ss2, t4⟩; simp

/-- Claim C5 (amended): a Region Analyzer failure (`None`) on one region
skips only that region - the page still emits a record containing its
extracted text and the elements of all other successfully analyzed regions.
(A malformed detection item, by contrast, aborts the whole page; see the
counterexample.) -/
theorem analysis_failure_skips_region_only (ctx : PCtx) (text : String)
    (ds1 ds2 : List Detection) (d : Detection) (ymin xmin ymax xmax : Int)
    (m1 : List VisualMeta) (e1 : List String) (t1 : Nat)
    (hwf2 : ∀ x ∈ ds2, wellFormed x = true)
    (h1 : processSeq ctx ds1 0 0 = .ok (m1, e1, t1))
    (hbb : d.bbox = some [ymin, xmin, ymax, xmax])
    (hnd : degenerateCrop ctx.w ctx.h ymin xmin ymax xmax = false)
    (hfail : ctx.analyze t1 = none) :
    ∃ m2 e2 t2, processSeq ctx ds2 (ds1.length + 1) (t1 + 1) = .ok (m2, e2, t2) ∧
      processPage ctx text (ds1 ++ d :: ds2) =
        some (PageDoc.mk (text ++ String.intercalate "\n" (e1 ++ e2)) (ctx.pageNum + 1)
          (m1 ++ m2)) := by
  obtain ⟨m2, e2, t2, h2⟩ := processSeq_ok ctx ds2 hwf2 (ds1.length + 1) (t1 + 1)
  refine ⟨m2, e2, t2, h2, ?_⟩
  have hitem : processItem ctx ds1.length t1 d = .ok (none, t1 + 1) := by
    simp [processItem, hbb, hnd, hfail]
  have hseq : processSeq ctx (d :: ds2) ds1.length t1 = .ok (m2, e2, t2) := by
    simp only [processSeq, hitem]
    exact h2
  unfold processPage
  rw [processSeq_append ctx ds1 (d :: ds2) 0 0, h1]
  dsimp only
  rw [Nat.zero_add, hseq]

/-- Claim C5 counterexample: a malformed detection item (no `bbox`) raises
during unpacking; the exception is caught at the page boundary, so no
PageRecord is emitted at all - the page's text is lost, not just the region. -/
theorem malformed_detection_drops_page :
    processPage ctxDup "some page text" [noBoxDet] = none := rfl

/-- Witness for C5: a single full-page region whose analysis fails on a
page with no other detections. -/
theorem analysis_failure_skips_region_only_witness :
    ((∀ x ∈ ([] : List Detection), wellFormed x = true) ∧
      processSeq ctxFail [] 0 0 = .ok ([], [], 0) ∧
      fullBoxDet.bbox = some [0, 0, 1000, 1000] ∧
      degenerateCrop ctxFail.w ctxFail.h 0 0 1000 1000 = false ∧
      ctxFail.analyze 0 = none) ∧
    (∃ m2 e2 t2,
      processSeq ctxFail [] (List.length ([] : List Detection) + 1) (0 + 1) = .ok (m2, e2, t2) ∧
      processPage ctxFail "T" ([] ++ fullBoxDet :: []) =
        some (PageDoc.mk ("T" ++ String.intercalate "\n" ([] ++ e2)) (ctxFail.pageNum + 1)
          ([] ++ m2))) :=
  ⟨⟨by simp, rfl, rfl, by decide, rfl⟩,
   analysis_failure_skips_region_only ctxFail "T" [] [] fullBoxDet 0 0 1000 1000 [] [] 0
     (by simp) rfl rfl (by decide) rfl⟩

theorem processItem_none_counter (ctx : PCtx) (idx t : Nat) (d : Detection) {t2 : Nat}
    (h : processItem ctx idx t d = .ok (none, t2)) : t ≤ t2 ∧ t2 ≤ t + 1 := by
  unfold processItem at h
  rcases hb : d.bbox with _ | (_ | ⟨a, (_ | ⟨b, (_ | ⟨c, (_ | ⟨e, (_ | ⟨f, l⟩)⟩)⟩)⟩)⟩) <;>
    rw [hb] at h <;> simp only [] at h
  case some.cons.cons.cons.cons.nil =>
    split at h
    · simp only [Except.ok.injEq, Prod.mk.injEq] at h
      omega
    · cases han : ctx.analyze t with
      | none =>
        rw [han] at h
        simp at h
        omega
      | some a2 =>
        rw [han] at h
        simp at h
  all_goals simp at h

theorem processItem_some (ctx : PCtx) (idx t : Nat) (d : Detection)
    {m : VisualMeta} {s : String} {t2 : Nat}
    (h : processItem ctx idx t d = .ok (some (m, s), t2)) :
    t2 = t + 1 ∧ m.vid = (ctx.uuids t).take 8 := by
  unfold processItem at h
  rcases hb : d.bbox with _ | (_ | ⟨a, (_ | ⟨b, (_ | ⟨c, (_ | ⟨e, (_ | ⟨f, l⟩)⟩)⟩)⟩)⟩) <;>
    rw [hb] at h <;> simp only [] at h
  case some.cons.cons.cons.cons.nil =>
    split at h
    · simp only [Except.ok.injEq, Prod.mk.injEq] at h
      exact absurd h.1 (by simp)
    · cases han : ctx.analyze t with
      | none =>
        rw [han] at h
        simp at h
      | some a2 =>
        rw [han] at h
        simp only [Except.ok.injEq, Prod.mk.injEq, Option.some.injEq] at h
        obtain ⟨⟨hm, hs⟩, ht⟩ := h
        exact ⟨ht.symm, by rw [← hm]⟩
  all_goals simp at h

theorem processSeq_ids (ctx : PCtx) :
    ∀ (ds : List Detection) (idx t : Nat) (ms : List VisualMeta) (ss : List String) (t2 : Nat),
      processSeq ctx ds idx t = .ok (ms, ss, t2) →
      t ≤ t2 ∧ t2 ≤ t + ds.length ∧
      ∃ ks : List Nat, ms.map (fun m => m.vid) = ks.map (fun k => (ctx.uuids k).take 8) ∧
        ks.Pairwise (· < ·) ∧ ∀ k ∈ ks, t ≤ k ∧ k < t2 := by
  intro ds
  induction ds with
  | nil =>
    intro idx t ms ss t2 h
    simp only [processSeq, Except.ok.injEq, Prod.mk.injEq] at h
    obtain ⟨hms, hss, ht⟩ := h
    subst hms ht
    exact ⟨le_refl t, by simp, [], rfl, List.Pairwise.nil, by simp⟩
  | cons d ds ih =>
    intro idx t ms ss t2 h
    simp only [processSeq] at h
    cases hpi : processItem ctx idx t d with
    | error e => rw [hpi] at h; simp at h
    | ok r =>
      rcases r with ⟨o, tm⟩
      rw [hpi] at h
      cases o with
      | none =>
        dsimp only at h
        obtain ⟨hle, hub, ks, hmap, hpw, hbd⟩ := ih (idx + 1) tm ms ss t2 h
        have hc := processItem_none_counter ctx idx t d hpi
        refine ⟨by omega, by simp only [List.length_cons]; omega, ks, hmap, hpw, ?_⟩
        intro k hk
        have := hbd k hk
        exact ⟨by omega, this.2⟩
      | some p =>
        rcases p with ⟨m, s⟩
        dsimp only at h
        cases hps : processSeq ctx ds (idx + 1) tm with
        | error e => rw [hps] at h; simp at h
        | ok r2 =>
          rcases r2 with ⟨ms2, ss2, t3⟩
          rw [hps] at h
          dsimp only at h
          simp only [Except.ok.injEq, Prod.mk.injEq] at h
          obtain ⟨hms, hss, ht⟩ := h
          subst hms ht
          obtain ⟨hc1, hc2⟩ := processItem_some ctx idx t d hpi
          obtain ⟨hle, hub, ks, hmap, hpw, hbd⟩ := ih (idx + 1) tm ms2 ss2 t3 hps
          refine ⟨by omega, by simp only [List.length_cons]; omega, t :: ks, ?_, ?_, ?_⟩
          · simp only [List.map_cons, hmap, hc2]
          · exact List.Pairwise.cons (fun k hk => by have := (hbd k hk).1; omega) hpw
          · intro k hk
            rcases List.mem_cons.mp hk with rfl | hk2
            · exact ⟨le_refl k, by omega⟩
            · have := hbd k hk2
              exact ⟨by omega, this.2⟩

/-- Per-page distinctness lemma: within a single page, the emitted ids are
pairwise distinct whenever the 8-character truncations of that page's uuid
draws are pairwise distinct.  (The run-level statement over all pages is
`run_visual_ids_distinct` below.) -/
theorem visual_ids_distinct (ctx : PCtx) (text : String) (ds : List Detection)
    (hinj : ∀ j, j < ds.length → ∀ i, i < j →
      (ctx.uuids i).take 8 ≠ (ctx.uuids j).take 8) :
    ∀ rec ∈ processPage ctx text ds, (rec.imageMeta.map (fun m => m.vid)).Nodup := by
  intro rec hrec
  unfold processPage at hrec
  cases hps : processSeq ctx ds 0 0 with
  | error e => rw [hps] at hrec; simp at hrec
  | ok r =>
    rcases r with ⟨ms, ss, t2⟩
    rw [hps] at hrec
    dsimp only at hrec
    rw [Option.mem_def, Option.some.injEq] at hrec
    subst hrec
    dsimp only
    obtain ⟨hle, hub, ks, hmap, hpw, hbd⟩ := processSeq_ids ctx ds 0 0 ms ss t2 hps
    rw [hmap]
    simp only [List.Nodup, List.pairwise_map]
    refine List.Pairwise.imp_of_mem ?_ hpw
    intro i j hi hj hlt
    have hjb := hbd j hj
    exact hinj j (by omega) i hlt

/-- Claim C2 counterexample: two `uuid4` draws that differ only after their
first 8 characters produce two VisualElements with the same id in one run. -/
theorem duplicate_ids_possible :
    (processPage ctxDup "T" dsTwo).map (fun r => r.imageMeta.map (fun m => m.vid)) =
      some ["deadbeef", "deadbeef"] ∧
    ¬ (["deadbeef", "deadbeef"] : List String).Nodup := ⟨rfl, by decide⟩

/-- Witness for C2 (amended): a two-region page whose uuid stream has
distinct 8-character truncations. -/
theorem visual_ids_distinct_witness :
    (∀ j, j < dsTwo.length → ∀ i, i < j →
      (ctxInj.uuids i).take 8 ≠ (ctxInj.uuids j).take 8) ∧
    ∀ rec ∈ processPage ctxInj "T" dsTwo, (rec.imageMeta.map (fun m => m.vid)).Nodup :=
  ⟨by decide, visual_ids_distinct ctxInj "T" dsTwo (by decide)⟩

theorem sortByPage_canonical (n : Nat) (f : Nat → Option PageDoc) (order : List Nat)
    (hperm : order.Perm (List.range n)) :
    sortByPage (order.map (fun p => (p, f p))) = (List.range n).map (fun p => (p, f p)) := by
  have hperm2 : (sortByPage (order.map (fun p => (p, f p)))).Perm
      ((List.range n).map (fun p => (p, f p))) :=
    (List.perm_insertionSort byPage _).trans (hperm.map _)
  have hsorted1 : List.Sorted byPage (sortByPage (order.map (fun p => (p, f p)))) :=
    List.sorted_insertionSort byPage _
  have hkeys : ((sortByPage (order.map (fun p => (p, f p)))).map Prod.fst).Perm (List.range n) := by
    have h2 := hperm2.map Prod.fst
    rw [List.map_map] at h2
    have h4 : (List.range n).map (Prod.fst ∘ fun p : Nat => (p, f p)) = List.range n :=
      List.map_id' (List.range n)
    rw [h4] at h2
    exact h2
  have hnodup : ((sortByPage (order.map (fun p => (p, f p)))).map Prod.fst).Nodup :=
    hkeys.nodup_iff.mpr (List.nodup_range n)
  have hne : (sortByPage (order.map (fun p => (p, f p)))).Pairwise (fun a b => a.1 ≠ b.1) := by
    rw [List.Nodup, List.pairwise_map] at hnodup
    exact hnodup
  have hsortlt : (sortByPage (order.map (fun p => (p, f p)))).Pairwise
      (fun a b : Nat × Option PageDoc => a.1 < b.1) :=
    (hsorted1.and hne).imp (fun hab => lt_of_le_of_ne hab.1 hab.2)
  have hsortlt2 : ((List.range n).map (fun p => (p, f p))).Pairwise
      (fun a b : Nat × Option PageDoc => a.1 < b.1) := by
    rw [List.pairwise_map]
    exact List.pairwise_lt_range n
  haveI : IsAntisymm (Nat × Option PageDoc) (fun a b => a.1 < b.1) :=
    ⟨fun a b h1 h2 => absurd (Nat.lt_trans h1 h2) (Nat.lt_irrefl _)⟩
  exact List.eq_of_perm_of_sorted hperm2 hsortlt hsortlt2

/-- Claim C1 (amended): for every completion order of the page workers the
pipeline output is sorted by source page order (strictly increasing page
numbers); when every page worker produces a record, additionally
`output[i].pageNumber = i + 1` for every index. -/
theorem pipeline_restores_page_order (n : Nat) (f : Nat → Option PageDoc) (order : List Nat)
    (hperm : order.Perm (List.range n))
    (hpage : ∀ p r, p < n → f p = some r → r.page = p + 1) :
    (processPdf f order).Pairwise (fun a b => a.page < b.page) ∧
    ((∀ p, p < n → (f p).isSome) →
      (processPdf f order).map (fun r => r.page) = (List.range n).map (fun p => p + 1)) := by
  unfold processPdf
  rw [sortByPage_canonical n f order hperm]
  constructor
  · rw [List.pairwise_filterMap, List.pairwise_map]
    refine List.Pairwise.imp_of_mem ?_ (List.pairwise_lt_range n)
    intro p q hp hq hlt x hx y hy
    rw [Option.mem_def] at hx hy
    have hxp := hpage p x (List.mem_range.mp hp) hx
    have hyq := hpage q y (List.mem_range.mp hq) hy
    omega
  · intro hall
    have key : ∀ l : List Nat, (∀ p ∈ l, p < n) →
        ((l.map (fun p => (p, f p))).filterMap Prod.snd).map (fun r => r.page) =
          l.map (fun p => p + 1) := by
      intro l
      induction l with
      | nil => intro _; rfl
      | cons p l ih =>
        intro hl
        have hp : p < n := hl p (by simp)
        obtain ⟨r, hr⟩ := Option.isSome_iff_exists.mp (hall p hp)
        simp only [List.map_cons, List.filterMap_cons]
        rw [hr]
        dsimp only
        simp only [List.map_cons]
        rw [hpage p r hp hr, ih (fun q hq => hl q (by simp [hq]))]
    exact key (List.range n) (fun p hp => List.mem_range.mp hp)

/-- Claim C1 counterexample: when the worker for page 0 fails, its record is
dropped and the first output record has page number 2, so
`output[i].pageNumber = i + 1` fails even though the output stays sorted. -/
theorem failed_page_breaks_numbering :
    ¬ (∀ i, ∀ hi : i < (processPdf pageResultsDrop [0, 1]).length,
        ((processPdf pageResultsDrop [0, 1]).get ⟨i, hi⟩).page = i + 1) := by
  decide

/-- Witness for C1 (amended): two pages completing in reverse order, both
succeeding. -/
theorem pipeline_restores_page_order_witness :
    (([1, 0] : List Nat).Perm (List.range 2) ∧
      (∀ p r, p < 2 → pageResultsAll p = some r → r.page = p + 1)) ∧
    ((processPdf pageResultsAll [1, 0]).Pairwise (fun a b => a.page < b.page) ∧
     ((∀ p, p < 2 → (pageResultsAll p).isSome) →
       (processPdf pageResultsAll [1, 0]).map (fun r => r.page) =
         (List.range 2).map (fun p => p + 1))) :=
  ⟨⟨by decide, fun p r _ h => by
      simp only [pageResultsAll, Option.some.injEq] at h
      rw [← h]⟩,
   pipeline_restores_page_order 2 pageResultsAll [1, 0] (by decide)
     (fun p r _ h => by
       simp only [pageResultsAll, Option.some.injEq] at h
       rw [← h])⟩

theorem ceilDiv_step (B : Nat) (hB : 0 < B) (n : Nat) (hn : 0 < n) :
    ceilDiv n B = ceilDiv (n - B) B + 1 := by
  unfold ceilDiv
  rcases Nat.le_total n B with hle | hge
  · have h1 : n - B = 0 := by omega
    rw [h1]
    have h2 : (0 + B - 1) / B = 0 := Nat.div_eq_of_lt (by omega)
    have h3 : (n + B - 1) / B = 1 := Nat.div_eq_of_lt_le (by omega) (by omega)
    rw [h2, h3]
  · have h1 : n + B - 1 = (n - B + B - 1) + B := by omega
    rw [h1, Nat.add_div_right _ hB]

theorem runBatch_success (oracle : Nat → UpsertOutcome) (fuel t : Nat) (hf : 0 < fuel)
    (h : oracle t = .success) : runBatch oracle fuel t = .ok (true, t + 1) := by
  cases fuel with
  | zero => omega
  | succ fuel => simp [runBatch, h]

theorem runBatch_no_fatal (oracle : Nat → UpsertOutcome) (hnf : ∀ u, oracle u ≠ .fatal) :
    ∀ fuel t, ∃ okb t2, runBatch oracle fuel t = .ok (okb, t2) := by
  intro fuel
  induction fuel with
  | zero => intro t; exact ⟨false, t, rfl⟩
  | succ fuel ih =>
    intro t
    cases ho : oracle t with
    | success => exact ⟨true, t + 1, by simp [runBatch, ho]⟩
    | rateLimit =>
      obtain ⟨okb, t2, h2⟩ := ih (t + 1)
      refine ⟨okb, t2, ?_⟩
      simp only [runBatch, ho]
      exact h2
    | fatal => exact absurd ho (hnf t)

theorem ingestLoop_all_success {α : Type} (oracle : Nat → UpsertOutcome)
    (hsucc : ∀ u, oracle u = .success) (B : Nat) (hB : 0 < B) :
    ∀ (fuel : Nat) (chunks : List α) (t : Nat), chunks.length ≤ fuel →
      ingestLoop oracle B fuel t chunks =
        .ok (ceilDiv chunks.length B, ceilDiv chunks.length B, t + ceilDiv chunks.length B) := by
  have hceil0 : ceilDiv 0 B = 0 := by
    unfold ceilDiv
    exact Nat.div_eq_of_lt (by omega)
  intro fuel
  induction fuel with
  | zero =>
    intro chunks t hlen
    cases chunks with
    | nil => simp [ingestLoop, hceil0]
    | cons c cs => simp at hlen
  | succ fuel ih =>
    intro chunks t hlen
    cases chunks with
    | nil => simp [ingestLoop, hceil0]
    | cons c cs =>
      have hrb : runBatch oracle maxRetries t = .ok (true, t + 1) :=
        runBatch_success oracle maxRetries t (by decide) (hsucc t)
      have hdrop : (cs.drop (B - 1)).length = (c :: cs).length - B := by
        simp only [List.length_drop, List.length_cons]
        omega
      have hlen2 : (cs.drop (B - 1)).length ≤ fuel := by
        rw [hdrop]
        simp only [List.length_cons]
        simp only [List.length_cons] at hlen
        omega
      have hrec := ih (cs.drop (B - 1)) (t + 1) hlen2
      rw [hdrop] at hrec
      have hceil : ceilDiv (c :: cs).length B = ceilDiv ((c :: cs).length - B) B + 1 :=
        ceilDiv_step B hB (c :: cs).length (by simp)
      simp only [ingestLoop, hrb]
      rw [hrec]
      dsimp only
      rw [hceil]
      simp only [Except.ok.injEq, Prod.mk.injEq]
      refine ⟨trivial, by simp, by omega⟩

theorem ingestLoop_no_fatal {α : Type} (oracle : Nat → UpsertOutcome)
    (hnf : ∀ u, oracle u ≠ .fatal) (B : Nat) (hB : 0 < B) :
    ∀ (fuel : Nat) (chunks : List α) (t : Nat), chunks.length ≤ fuel →
      ∃ ns t2, ingestLoop oracle B fuel t chunks = .ok (ceilDiv chunks.length B, ns, t2) := by
  have hceil0 : ceilDiv 0 B = 0 := by
    unfold ceilDiv
    exact Nat.div_eq_of_lt (by omega)
  intro fuel
  induction fuel with
  | zero =>
    intro chunks t hlen
    cases chunks with
    | nil => exact ⟨0, t, by simp [ingestLoop, hceil0]⟩
    | cons c cs => simp at hlen
  | succ fuel ih =>
    intro chunks t hlen
    cases chunks with
    | nil => exact ⟨0, t, by simp [ingestLoop, hceil0]⟩
    | cons c cs =>
      obtain ⟨okb, t1, hrb⟩ := runBatch_no_fatal oracle hnf maxRetries t
      have hlen2 : (cs.drop (B - 1)).length ≤ fuel := by
        simp only [List.length_drop]
        simp only [List.length_cons] at hlen
        omega
      obtain ⟨ns, t2, hrec⟩ := ih (cs.drop (B - 1)) t1 hlen2
      have hdrop : (cs.drop (B - 1)).length = (c :: cs).length - B := by
        simp only [List.length_drop, List.length_cons]
        omega
      rw [hdrop] at hrec
      have hceil : ceilDiv (c :: cs).length B = ceilDiv ((c :: cs).length - B) B + 1 :=
        ceilDiv_step B hB (c :: cs).length (by simp)
      refine ⟨ns + (if okb then 1 else 0), t2, ?_⟩
      simp only [ingestLoop, hrb]
      rw [hrec]
      dsimp only
      rw [hceil]

/-- Claim C6: with batch size `B > 0`, a run in which every upsert succeeds
on first attempt issues exactly `ceil(N/B)` upsert calls (the third
component counts attempts) in `ceil(N/B)` batches; and with no fatal error,
every one of the `ceil(N/B)` batches is processed even when some batch
exhausts its retry ceiling. -/
theorem ingestion_batch_count {α : Type} (B : Nat) (hB : 0 < B)
    (oracle : Nat → UpsertOutcome) (chunks : List α) :
    ((∀ u, oracle u = .success) →
      ingestDocs oracle B chunks =
        .ok (ceilDiv chunks.length B, ceilDiv chunks.length B, ceilDiv chunks.length B)) ∧
    ((∀ u, oracle u ≠ .fatal) →
      ∃ ns t2, ingestDocs oracle B chunks = .ok (ceilDiv chunks.length B, ns, t2)) := by
  constructor
  · intro hs
    unfold ingestDocs
    have h := ingestLoop_all_success oracle hs B hB chunks.length chunks 0 (le_refl _)
    simpa using h
  · intro hnf
    unfold ingestDocs
    exact ingestLoop_no_fatal oracle hnf B hB chunks.length chunks 0 (le_refl _)

/-- Witness for C6: three chunks in batches of two under an always-succeeding
oracle: two batches, two upsert calls. -/
theorem ingestion_batch_count_witness :
    0 < 2 ∧
    (((∀ u, oracleSuccess u = .success) →
       ingestDocs oracleSuccess 2 ["a", "b", "c"] = .ok (ceilDiv 3 2, ceilDiv 3 2, ceilDiv 3 2)) ∧
     ((∀ u, oracleSuccess u ≠ .fatal) →
       ∃ ns t2, ingestDocs oracleSuccess 2 ["a", "b", "c"] = .ok (ceilDiv 3 2, ns, t2))) :=
  ⟨by decide, ingestion_batch_count 2 (by decide) oracleSuccess ["a", "b", "c"]⟩

/-- Under `oracleThrottle` the first batch exhausts all 5 retries (attempts
0-4) and is logged as failed, yet the second batch is still upserted
(attempt 5): 2 batches started, 1 succeeded, 6 attempts in total. -/
theorem exhausted_batch_does_not_block :
    ingestDocs oracleThrottle 1 ["a", "b"] = .ok (2, 1, 6) := rfl

/-- Claim C8 counterexample: the code does not validate the classifier's
output - a parsed response with `intent="specific"` and three selected
indices is returned unchanged by `select_best_visual_match`, so a Selection
with intent "specific" can carry more than 2 indices. -/
theorem selector_passes_through_excess_indices :
    (selectBestVisualMatch "show the GDP table" candOne (.ok selThree)).1 = some selThree ∧
    selThree.intent = some "specific" ∧
    ¬ ((selThree.selectedIndices.getD []).length ≤ 2) := ⟨rfl, rfl, by decide⟩

/-- Claim C8 (amended): the Selection is the classifier's parsed response
passed through unvalidated; what the chat handler guarantees is display-side:
in specific mode at most one candidate is shown as the primary visual (the
first in-range index), and in gallery mode exactly the in-range selected
indices are shown, with no recomputed type filtering. -/
theorem selection_display_bounds (q : String) (cs : List CandIn) (s : SelJson)
    (n : Nat) (indices : List Int) (hcs : cs ≠ []) :
    (selectBestVisualMatch q cs (.ok s)).1 = some s ∧
    (specificShown n indices).length ≤ 1 ∧
    galleryShown n indices = indices.filter (inRange n) := by
  refine ⟨?_, ?_, ?_⟩
  · cases cs with
    | nil => exact absurd rfl hcs
    | cons a l => rfl
  · induction indices with
    | nil => simp [specificShown]
    | cons i rest ih =>
      simp only [specificShown]
      split
      · simp
      · exact ih
  · induction indices with
    | nil => rfl
    | cons i rest ih =>
      simp only [galleryShown, List.filter_cons]
      cases hi : inRange n i with
      | true => simp [hi, ih]
      | false => simp [hi, ih]

/-- Witness for C8 (amended): one candidate, the three-index response, and a
display list of length 1 with selected indices `[5, 0]`. -/
theorem selection_display_bounds_witness :
    candOne ≠ [] ∧
    ((selectBestVisualMatch "q" candOne (.ok selThree)).1 = some selThree ∧
     (specificShown 1 [5, 0]).length ≤ 1 ∧
     galleryShown 1 [5, 0] = [5, 0].filter (inRange 1)) :=
  ⟨by decide, selection_display_bounds "q" candOne selThree 1 [5, 0] (by decide)⟩

/-- Claim C9: an empty candidate list short-circuits to no selection with
zero classifier invocations, for every classifier; a failed call or
unparseable response (the `.error` outcome) also yields no selection rather
than an exception, and the chat handler turns a `None` selection into the
empty index list with reason "Selection failed.". -/
theorem selector_failure_safe (q : String) :
    (∀ cl, selectBestVisualMatch q [] cl = (none, 0)) ∧
    (∀ cs, (selectBestVisualMatch q cs (.error ())).1 = none) ∧
    parseSelection none = ([], "specific", "Selection failed.") := by
  refine ⟨fun cl => rfl, fun cs => ?_, rfl⟩
  cases cs with
  | nil => rfl
  | cons a l => rfl

theorem foundIds_mem (docs : List RetDoc) (x : String) :
    x ∈ foundIds docs ↔ ∃ d ∈ docs, x ∈ scanIds d.pageContent := by
  unfold foundIds
  have key : ∀ (ds : List RetDoc) (acc : List String),
      x ∈ ds.foldl (fun a d => a ++ scanIds d.pageContent) acc ↔
        x ∈ acc ∨ ∃ d ∈ ds, x ∈ scanIds d.pageContent := by
    intro ds
    induction ds with
    | nil => intro acc; simp
    | cons d ds ih =>
      intro acc
      rw [List.foldl_cons, ih]
      simp [List.mem_append]
      tauto
  rw [key docs []]
  simp

theorem collectItems_spec (pathEx : String → Bool) (found : List String) (d : RetDoc) :
    ∀ (its : List MetaItem) (k : Nat),
      List.Forall₂ (fun (c : CandOut) (it : MetaItem) =>
          c.isLinked = decide ((it.itemId.getD "") ∈ found))
        (collectItems pathEx found d its k).1 (its.filter (keepItem pathEx)) ∧
      List.Forall₂ (fun (im : ImgOut) (it : MetaItem) =>
          im.ipath = it.itemPath.getD "" ∧ im.ipage = d.page ∧ keepItem pathEx it = true)
        (collectItems pathEx found d its k).2.1 (its.filter (keepItem pathEx)) := by
  intro its
  induction its with
  | nil => intro k; exact ⟨List.Forall₂.nil, List.Forall₂.nil⟩
  | cons it its ih =>
    intro k
    cases hk : keepItem pathEx it with
    | false =>
      simp only [collectItems, hk, List.filter_cons, Bool.false_eq_true, if_false]
      exact ih k
    | true =>
      simp only [collectItems, hk, List.filter_cons, if_true]
      refine ⟨List.Forall₂.cons ?_ (ih (k + 1)).1, List.Forall₂.cons ?_ (ih (k + 1)).2⟩
      · simp [mkCandidate]
      · exact ⟨rfl, rfl, hk⟩

theorem collectDocs_spec (pathEx : String → Bool) (found : List String) :
    ∀ (docs : List RetDoc) (k : Nat),
      List.Forall₂ (fun (c : CandOut) (dit : RetDoc × MetaItem) =>
          c.isLinked = decide ((dit.2.itemId.getD "") ∈ found))
        (collectDocs pathEx found docs k).1 (srcItems pathEx docs) ∧
      List.Forall₂ (fun (im : ImgOut) (dit : RetDoc × MetaItem) =>
          im.ipath = dit.2.itemPath.getD "" ∧ im.ipage = dit.1.page ∧
            keepItem pathEx dit.2 = true)
        (collectDocs pathEx found docs k).2.1 (srcItems pathEx docs) := by
  intro docs
  induction docs with
  | nil => intro k; exact ⟨List.Forall₂.nil, List.Forall₂.nil⟩
  | cons d ds ih =>
    intro k
    cases hm : d.imageMetadata with
    | none =>
      simp only [collectDocs, hm, srcItems, Option.getD_none, List.filter_nil, List.map_nil,
        List.nil_append]
      exact ih k
    | some its =>
      simp only [collectDocs, hm, srcItems, Option.getD_some]
      constructor
      · refine List.rel_append ?_ (ih _).1
        rw [List.forall₂_map_right_iff]
        refine (collectItems_spec pathEx found d its k).1.imp ?_
        intro c it hc
        exact hc
      · refine List.rel_append ?_ (ih _).2
        rw [List.forall₂_map_right_iff]
        refine (collectItems_spec pathEx found d its k).2.imp ?_
        intro im it him
        exact him

theorem forall2_mem_left {α β : Type} {R : α → β → Prop} :
    ∀ {l1 : List α} {l2 : List β}, List.Forall₂ R l1 l2 →
      ∀ {x : α}, x ∈ l1 → ∃ y ∈ l2, R x y := by
  intro l1 l2 h
  induction h with
  | nil => intro x hx; simp at hx
  | @cons a b l1 l2 hab htail ih =>
    intro x hx
    rcases List.mem_cons.mp hx with rfl | hx2
    · exact ⟨b, by simp, hab⟩
    · obtain ⟨y, hy, hr⟩ := ih hx2
      exact ⟨y, by simp [hy], hr⟩

/-- Claim C7: each Candidate is linked exactly when its source item's id is
matched by the `ID: <token>]` pattern in the text of at least one retrieved
chunk - `isLinked = true` iff the id occurs in some chunk's scan result, and
ids absent from all retrieved text give `isLinked = false`.  The candidate
list corresponds pointwise to the path-filtered metadata items. -/
theorem candidate_link_iff (pathEx : String → Bool) (docs : List RetDoc) :
    List.Forall₂ (fun (c : CandOut) (dit : RetDoc × MetaItem) =>
        (c.isLinked = true ↔ ∃ d ∈ docs, (dit.2.itemId.getD "") ∈ scanIds d.pageContent))
      (buildCandidates pathEx docs).1 (srcItems pathEx docs) := by
  refine ((collectDocs_spec pathEx (foundIds docs) docs 0).1).imp ?_
  intro c dit hc
  rw [hc, decide_eq_true_eq]
  exact foundIds_mem docs _

/-- Claim C10: every entry of the displayed-image list has a present,
non-empty path that exists on the filesystem, and both the candidate list
and the image list have exactly one entry per metadata item whose path
exists - items with a missing crop file are silently omitted from both. -/
theorem candidates_require_existing_crop (pathEx : String → Bool) (docs : List RetDoc)
    (img : ImgOut) (hmem : img ∈ (buildCandidates pathEx docs).2) :
    pathEx img.ipath = true ∧ img.ipath ≠ "" ∧
    (buildCandidates pathEx docs).1.length = (srcItems pathEx docs).length ∧
    (buildCandidates pathEx docs).2.length = (srcItems pathEx docs).length := by
  have hspec := collectDocs_spec pathEx (foundIds docs) docs 0
  have hl1 : (buildCandidates pathEx docs).1.length = (srcItems pathEx docs).length :=
    hspec.1.length_eq
  have hl2 : (buildCandidates pathEx docs).2.length = (srcItems pathEx docs).length :=
    hspec.2.length_eq
  obtain ⟨dit, hd, hpath, hpage, hkeep⟩ := forall2_mem_left hspec.2 hmem
  unfold keepItem at hkeep
  cases hp : dit.2.itemPath with
  | none => rw [hp] at hkeep; simp at hkeep
  | some p =>
    rw [hp] at hkeep
    simp only [Bool.and_eq_true] at hkeep
    obtain ⟨hb1, hb2⟩ := hkeep
    have hpp : img.ipath = p := by rw [hpath, hp]; exact Option.getD_some
    refine ⟨by rw [hpp]; exact hb2, ?_, hl1, hl2⟩
    rw [hpp]
    intro hcontra
    rw [hcontra] at hb1
    simp at hb1

/-- Witness for C10: two retrieved chunks, one metadata item whose crop file
exists and one whose file is missing - only the former becomes a candidate
and a displayed image. -/
theorem candidates_require_existing_crop_witness :
    (ImgOut.mk "tables/t.png" (some 1) "|a|b|" true ∈
      (buildCandidates pathExSample [docCited, docMissing]).2) ∧
    (pathExSample (ImgOut.mk "tables/t.png" (some 1) "|a|b|" true).ipath = true ∧
     (ImgOut.mk "tables/t.png" (some 1) "|a|b|" true).ipath ≠ "" ∧
     (buildCandidates pathExSample [docCited, docMissing]).1.length =
       (srcItems pathExSample [docCited, docMissing]).length ∧
     (buildCandidates pathExSample [docCited, docMissing]).2.length =
       (srcItems pathExSample [docCited, docMissing]).length) :=
  ⟨by decide,
   candidates_require_existing_crop pathExSample [docCited, docMissing]
     (ImgOut.mk "tables/t.png" (some 1) "|a|b|" true) (by decide)⟩

theorem processPage_ids (ctx : PCtx) (text : String) (ds : List Detection) (rec : PageDoc)
    (h : processPage ctx text ds = some rec) :
    ∃ ks : List Nat, rec.imageMeta.map (fun m => m.vid) = ks.map (fun k => (ctx.uuids k).take 8) ∧
      ks.Pairwise (· < ·) ∧ ∀ k ∈ ks, k < ds.length := by
  unfold processPage at h
  cases hps : processSeq ctx ds 0 0 with
  | error e => rw [hps] at h; simp at h
  | ok r =>
    rcases r with ⟨ms, ss, t2⟩
    rw [hps] at h
    dsimp only at h
    rw [Option.some.injEq] at h
    subst h
    dsimp only
    obtain ⟨hle, hub, ks, hmap, hpw, hbd⟩ := processSeq_ids ctx ds 0 0 ms ss t2 hps
    exact ⟨ks, hmap, hpw, fun k hk => by have := hbd k hk; omega⟩

theorem run_ids_mem {f : Nat → Option PageDoc} {l : List Nat} {x : String}
    (hx : x ∈ (((l.map (fun p => (p, f p))).filterMap Prod.snd).map
        (fun r => r.imageMeta.map (fun m => m.vid))).flatten) :
    ∃ p ∈ l, ∃ rec, f p = some rec ∧ x ∈ rec.imageMeta.map (fun m => m.vid) := by
  rw [List.mem_flatten] at hx
  obtain ⟨s, hs, hxs⟩ := hx
  rw [List.mem_map] at hs
  obtain ⟨rec, hrec, rfl⟩ := hs
  rw [List.mem_filterMap] at hrec
  obtain ⟨pr, hpr, hsnd⟩ := hrec
  rw [List.mem_map] at hpr
  obtain ⟨p2, hp2, heq⟩ := hpr
  subst heq
  exact ⟨p2, hp2, rec, hsnd, hxs⟩

theorem run_ids_nodup_aux (n : Nat) (f : Nat → Option PageDoc) (lenOf : Nat → Nat)
    (uuidsOf : Nat → Nat → String)
    (hchar : ∀ p rec, p < n → f p = some rec →
      ∃ ks : List Nat, rec.imageMeta.map (fun m => m.vid) =
          ks.map (fun k => (uuidsOf p k).take 8) ∧
        ks.Pairwise (· < ·) ∧ ∀ k ∈ ks, k < lenOf p)
    (hinj : ∀ q, q < n → ∀ j, j < lenOf q → ∀ p, p < n → ∀ i, i < lenOf p →
      (p, i) ≠ (q, j) → (uuidsOf p i).take 8 ≠ (uuidsOf q j).take 8) :
    ∀ l : List Nat, l.Pairwise (· < ·) → (∀ p ∈ l, p < n) →
      (((l.map (fun p => (p, f p))).filterMap Prod.snd).map
        (fun r => r.imageMeta.map (fun m => m.vid))).flatten.Nodup := by
  intro l
  induction l with
  | nil => intro _ _; simp
  | cons p l ih =>
    intro hpw hlt
    have hpn : p < n := hlt p (by simp)
    have hpw2 := hpw.of_cons
    have hlt2 : ∀ q ∈ l, q < n := fun q hq => hlt q (by simp [hq])
    have hgt : ∀ q ∈ l, p < q := (List.pairwise_cons.mp hpw).1
    simp only [List.map_cons, List.filterMap_cons]
    cases hf : f p with
    | none =>
      exact ih hpw2 hlt2
    | some rec =>
      dsimp only
      simp only [List.map_cons, List.flatten_cons]
      rw [List.nodup_append]
      obtain ⟨ks, hmap, hkpw, hkb⟩ := hchar p rec hpn hf
      refine ⟨?_, ih hpw2 hlt2, ?_⟩
      · rw [hmap]
        simp only [List.Nodup, List.pairwise_map]
        refine List.Pairwise.imp_of_mem ?_ hkpw
        intro i j hi hj hij
        refine hinj p hpn j (hkb j hj) p hpn i (hkb i hi) ?_
        intro hcon
        rw [Prod.mk.injEq] at hcon
        omega
      · rw [hmap]
        intro x hx1 hx2
        rw [List.mem_map] at hx1
        obtain ⟨i, hiks, rfl⟩ := hx1
        obtain ⟨q, hq, rec2, hf2, hxq⟩ := run_ids_mem hx2
        obtain ⟨ks2, hmap2, hkpw2, hkb2⟩ := hchar q rec2 (hlt2 q hq) hf2
        rw [hmap2, List.mem_map] at hxq
        obtain ⟨j, hjks, hquj⟩ := hxq
        have hpq : p < q := hgt q hq
        refine hinj q (hlt2 q hq) j (hkb2 j hjks) p hpn i (hkb i hiks) ?_ hquj.symm
        intro hcon
        rw [Prod.mk.injEq] at hcon
        omega

/-- Claim C2 (amended): across one whole document-processing run - all pages,
any worker completion order - the VisualElement ids carried by the records
the Document Pipeline returns are pairwise distinct, provided the
8-character truncations of the `uuid4` draws made across the run are
pairwise distinct.  The source truncates `uuid.uuid4()` to 8 characters
(`document_processor.py` line 128), so this is exactly the guarantee the
code provides: uniqueness is conditional on the truncated draws, not
absolute. -/
theorem run_visual_ids_distinct (n w h : Nat) (fname : String)
    (texts : Nat → String) (dss : Nat → List Detection)
    (analyzeOf : Nat → Nat → Option AnalysisRes) (uuidsOf : Nat → Nat → String)
    (order : List Nat)
    (hperm : order.Perm (List.range n))
    (hinj : ∀ q, q < n → ∀ j, j < (dss q).length → ∀ p, p < n → ∀ i, i < (dss p).length →
      (p, i) ≠ (q, j) → (uuidsOf p i).take 8 ≠ (uuidsOf q j).take 8) :
    ((processPdf (runPages w h fname texts dss analyzeOf uuidsOf) order).map
      (fun r => r.imageMeta.map (fun m => m.vid))).flatten.Nodup := by
  unfold processPdf
  rw [sortByPage_canonical n (runPages w h fname texts dss analyzeOf uuidsOf) order hperm]
  refine run_ids_nodup_aux n (runPages w h fname texts dss analyzeOf uuidsOf)
    (fun p => (dss p).length) uuidsOf ?_ hinj (List.range n) (List.pairwise_lt_range n)
    (fun p hp => List.mem_range.mp hp)
  intro p rec _ hf
  exact processPage_ids (PCtx.mk w h p fname (analyzeOf p) (uuidsOf p)) (texts p) (dss p) rec hf

/-- Witness for C2 (amended): a two-page run completing in reverse order, one
successfully analyzed region per page, with distinct truncated uuid draws
across the pages. -/
theorem run_visual_ids_distinct_witness :
    (([1, 0] : List Nat).Perm (List.range 2) ∧
     (∀ q, q < 2 → ∀ j, j < (twoPageDss q).length → ∀ p, p < 2 →
        ∀ i, i < (twoPageDss p).length →
       (p, i) ≠ (q, j) → (twoPageUuids p i).take 8 ≠ (twoPageUuids q j).take 8)) ∧
    ((processPdf (runPages 1000 1000 "doc.pdf" twoPageTexts twoPageDss twoPageAnalyze
        twoPageUuids) [1, 0]).map (fun r => r.imageMeta.map (fun m => m.vid))).flatten.Nodup := by
  have hinj : ∀ q, q < 2 → ∀ j, j < (twoPageDss q).length → ∀ p, p < 2 →
      ∀ i, i < (twoPageDss p).length →
      (p, i) ≠ (q, j) → (twoPageUuids p i).take 8 ≠ (twoPageUuids q j).take 8 := by
    intro q hq j hj p hp i hi hne
    have hj1 : j = 0 := by simp [twoPageDss] at hj; omega
    have hi1 : i = 0 := by simp [twoPageDss] at hi; omega
    subst hj1
    subst hi1
    have hpq : p ≠ q := fun h => hne (by rw [h])
    interval_cases p <;> interval_cases q <;> first | exact absurd rfl hpq | decide
  exact ⟨⟨by decide, hinj⟩,
    run_visual_ids_distinct 2 1000 1000 "doc.pdf" twoPageTexts twoPageDss twoPageAnalyze
      twoPageUuids [1, 0] (by decide) hinj⟩
